import Mathlib

set_option maxRecDepth 20000

/-!
Shallow embedding of the trafalgar core: the batched, capped file-search
command in src-tauri/src/lib.rs, the shallow-then-recursive search variant
in src-tauri/src/search.rs, and the PTY session registry and output pump in
src-tauri/src/pty.rs.  A filesystem traversal is modelled as the list of
items the walkdir iterator yields (an error item is `none`), a channel send
as one element of an event trace, and fallible sends by a success predicate
indexed by the attempt number.
-/

/-- Metadata of one directory entry as obtained from a successful metadata
call: is_file(), len(), and the modified() timestamp (`none` models a
modified() error, which both engines map to 0 at emission). -/
structure Meta where
  isFile : Bool
  size : Nat
  modified : Option Nat
deriving DecidableEq, Repr

/-- One directory entry as a traversal yields it: entry.path() rendered by
to_string_lossy, entry.file_name() rendered lossily, path.file_name()
(`none` for paths such as /), the outcome of path.canonicalize() (`none` on
failure), and the outcome of the metadata call (`none` on failure). -/
structure Entry where
  path : String
  name : String
  pathFileName : Option String
  canonical : Option String
  metadata : Option Meta
deriving DecidableEq, Repr

/-- Test that pat occurs as a leading segment of the second list; the
building block of the substring test. -/
def leadsWith : List Char → List Char → Bool
  | [], _ => true
  | _ :: _, [] => false
  | a :: as, b :: bs => a == b && leadsWith as bs

/-- Model of Rust str::contains for a literal pattern: pat occurs as a
contiguous segment of the second list. -/
def hasSub (pat : List Char) : List Char → Bool
  | [] => pat.isEmpty
  | c :: rest => leadsWith pat (c :: rest) || hasSub pat rest

/-- Character-wise model of str::to_lowercase. -/
def lowerStr (s : String) : String :=
  String.mk (s.data.map Char.toLower)

/-- Case-insensitive substring filter exactly as both search variants apply
it: name.to_lowercase().contains(&query), the query already lowercased. -/
def nameMatches (lq : String) (name : String) : Bool :=
  hasSub lq.data (lowerStr name).data

/-- Fuel-bounded worker for the str::replace model; every step consumes at
least one character, so fuel equal to the list length is always enough. -/
def replaceFuel (pat rep : List Char) : Nat → List Char → List Char
  | 0, s => s
  | fuel + 1, s =>
    match s with
    | [] => []
    | c :: rest =>
      if !pat.isEmpty && leadsWith pat (c :: rest) then
        rep ++ replaceFuel pat rep fuel ((c :: rest).drop pat.length)
      else
        c :: replaceFuel pat rep fuel rest

/-- Model of Rust str::replace for a non-empty literal pattern: rewrite
non-overlapping occurrences left to right. -/
def replaceL (pat rep : List Char) (s : List Char) : List Char :=
  replaceFuel pat rep s.length s

/-- The Windows extended-path marker that clean_path strips, as a character
list: the four characters of the Rust literal "\\\\?\\". -/
def extPat : List Char := ['\\', '\\', '?', '\\']

/-- Model of clean_path in lib.rs: remove the Windows extended path marker,
then normalize every backslash to a forward slash. -/
def clean_path (p : String) : String :=
  String.mk (replaceL ['\\'] ['/'] (replaceL extPat [] p.data))

/-- The traversal items both engines treat as matches: walkdir error items
are dropped by filter_map, an entry whose lowercased name misses the query
is skipped, and an entry whose metadata read fails is skipped by lib.rs
(search.rs instead panics on it); the surviving entry-metadata pairs are
kept in traversal order. -/
def matchedItems (lq : String) (items : List (Option Entry)) : List (Entry × Meta) :=
  items.filterMap fun it =>
    match it with
    | none => none
    | some e =>
      match e.metadata with
      | none => none
      | some m => if nameMatches lq e.name then some (e, m) else none

/-- Per-batch cap of lib.rs. -/
def MAX_RESULTS_PER_BATCH : Nat := 20

/-- Total result cap of lib.rs. -/
def MAX_TOTAL_RESULTS : Nat := 100

namespace Lib

/-- SearchEvent of lib.rs: Started, Result and Finished, where Finished
carries total_matches and the has_more flag. -/
inductive SearchEvent where
  | started (query : String) (searchId : Nat)
  | result (searchId : Nat) (path name : String) (isFile : Bool) (size modified : Nat)
  | finished (searchId : Nat) (totalMatches : Nat) (hasMore : Bool)
deriving DecidableEq, Repr

/-- The Result event lib.rs sends for one buffered match: the stored path is
canonicalized with fallback to the original on failure and passed through
clean_path, the name is recomputed as path.file_name() with empty-string
default, and size and modified come from the stored metadata. -/
def mkResult (sid : Nat) (x : Entry × Meta) : SearchEvent :=
  .result sid (clean_path (x.1.canonical.getD x.1.path)) (x.1.pathFileName.getD "")
    x.2.isFile x.2.size (x.2.modified.getD 0)

/-- Mutable state of the lib.rs loop: total_matches, sent_results, the
results buffer, and the trace of sends attempted so far. -/
structure LoopSt where
  total : Nat
  sent : Nat
  buf : List (Entry × Meta)
  evs : List SearchEvent
deriving Repr

/-- Model of the drain loop inside lib.rs::search_files: send the drained
matches one by one while sent_results is below the total cap; the drained
batch leaves the buffer regardless of how far the sends got. -/
def sendBatch (sid : Nat) : List (Entry × Meta) → Nat → List SearchEvent → Nat × List SearchEvent
  | [], sent, evs => (sent, evs)
  | x :: rest, sent, evs =>
    if MAX_TOTAL_RESULTS ≤ sent then (sent, evs)
    else sendBatch sid rest (sent + 1) (evs ++ [mkResult sid x])

/-- Model of the WalkDir loop of lib.rs::search_files: walkdir errors are
dropped, a matching entry with readable metadata is counted and buffered,
a full buffer of 20 is drained and sent, and the walk stops as soon as
sent_results reaches the total cap. -/
def walkLoop (lq : String) (sid : Nat) : List (Option Entry) → LoopSt → LoopSt
  | [], st => st
  | none :: rest, st => walkLoop lq sid rest st
  | some e :: rest, st =>
    if nameMatches lq e.name then
      match e.metadata with
      | none => walkLoop lq sid rest st
      | some m =>
        let buf1 := st.buf ++ [(e, m)]
        let st1 :=
          if MAX_RESULTS_PER_BATCH ≤ buf1.length then
            let p := sendBatch sid (buf1.take MAX_RESULTS_PER_BATCH) st.sent st.evs
            { total := st.total + 1, sent := p.1,
              buf := buf1.drop MAX_RESULTS_PER_BATCH, evs := p.2 }
          else
            { total := st.total + 1, sent := st.sent, buf := buf1, evs := st.evs }
        if MAX_TOTAL_RESULTS ≤ st1.sent then st1 else walkLoop lq sid rest st1
    else walkLoop lq sid rest st

/-- The state the walk loop reaches from st after processing one matching
entry with readable metadata: the match is counted and buffered, and a full
buffer of 20 is drained through sendBatch. -/
def stepSt (sid : Nat) (e : Entry) (m : Meta) (st : LoopSt) : LoopSt :=
  if MAX_RESULTS_PER_BATCH ≤ (st.buf ++ [(e, m)]).length then
    { total := st.total + 1,
      sent := (sendBatch sid ((st.buf ++ [(e, m)]).take MAX_RESULTS_PER_BATCH) st.sent st.evs).1,
      buf := (st.buf ++ [(e, m)]).drop MAX_RESULTS_PER_BATCH,
      evs := (sendBatch sid ((st.buf ++ [(e, m)]).take MAX_RESULTS_PER_BATCH) st.sent st.evs).2 }
  else
    { total := st.total + 1, sent := st.sent, buf := st.buf ++ [(e, m)], evs := st.evs }

/-- search_files of lib.rs over the item list its WalkDir traversal yields:
send Started, run the walk loop, flush up to one remaining batch, and send
Finished with has_more := total_matches > sent_results.  The first component
is the trace of attempted sends (every send's result is discarded by the
code, so the trace never depends on channel health), the second the
command's return value, which is always Ok(()). -/
def search_files (query : String) (sid : Nat) (items : List (Option Entry)) :
    List SearchEvent × Except String Unit :=
  let lq := lowerStr query
  let st := walkLoop lq sid items
    { total := 0, sent := 0, buf := [], evs := [SearchEvent.started query sid] }
  let p := sendBatch sid (st.buf.take MAX_RESULTS_PER_BATCH) st.sent st.evs
  (p.2 ++ [SearchEvent.finished sid st.total (decide (p.1 < st.total))], Except.ok ())

/-- Which attempted sends are delivered when send number n succeeds iff
sendOk n; lib.rs discards each send's result, so a failure only loses that
one event. -/
def deliveredFrom (sendOk : Nat → Bool) : List SearchEvent → Nat → List SearchEvent
  | [], _ => []
  | e :: rest, n =>
    if sendOk n then e :: deliveredFrom sendOk rest (n + 1)
    else deliveredFrom sendOk rest (n + 1)

/-- The delivered subtrace of an attempted trace, counting attempts from 0. -/
def delivered (sendOk : Nat → Bool) (evs : List SearchEvent) : List SearchEvent :=
  deliveredFrom sendOk evs 0

/-- Recognize a Result event of lib.rs. -/
def isResult : SearchEvent → Bool
  | .result .. => true
  | _ => false

/-- Recognize a Finished event of lib.rs. -/
def isFinished : SearchEvent → Bool
  | .finished .. => true
  | _ => false

end Lib

/-- The matches among a plain entry list (the shallow pass of search.rs):
an entry whose lowercased name contains the query, paired with its
metadata when that read succeeds. -/
def matchedEntries (lq : String) (l : List Entry) : List (Entry × Meta) :=
  l.filterMap fun e =>
    match e.metadata with
    | none => none
    | some m => if nameMatches lq e.name then some (e, m) else none

/-- Every traversal item is an Ok entry whose metadata read succeeds. -/
def goodItem (it : Option Entry) : Bool :=
  match it with
  | none => false
  | some e => e.metadata.isSome

namespace Rs

/-- SearchEvent of search.rs: same Started and Result payloads as lib.rs,
but Finished carries only total_matches and no has_more flag. -/
inductive SearchEvent where
  | started (query : String) (searchId : Nat)
  | result (searchId : Nat) (path name : String) (isFile : Bool) (size modified : Nat)
  | finished (searchId : Nat) (totalMatches : Nat)
deriving DecidableEq, Repr

/-- The Result event search.rs sends for a match: the raw lossily decoded
entry path and entry file name, with no canonicalization, prefix stripping
or separator normalization. -/
def mkResult (sid : Nat) (x : Entry × Meta) : SearchEvent :=
  .result sid x.1.path x.1.name x.2.isFile x.2.size (x.2.modified.getD 0)

/-- Running state of search.rs: the number of channel sends attempted so
far, total_matches, the delivered events, and whether an unwrap panicked. -/
structure RsSt where
  att : Nat
  total : Nat
  evs : List SearchEvent
  panicked : Bool
deriving Repr

/-- Shallow pass of search.rs over the read_dir entries: on a name match the
metadata unwrap panics when the read failed, the send unwrap panics when the
channel rejects the event, and otherwise the Result is delivered and
total_matches incremented. -/
def passLoopE (sendOk : Nat → Bool) (lq : String) (sid : Nat) : List Entry → RsSt → RsSt
  | [], st => st
  | e :: rest, st =>
    if nameMatches lq e.name then
      match e.metadata with
      | none => { st with panicked := true }
      | some m =>
        if sendOk st.att then
          passLoopE sendOk lq sid rest
            { st with att := st.att + 1, total := st.total + 1,
                      evs := st.evs ++ [mkResult sid (e, m)] }
        else { st with att := st.att + 1, panicked := true }
    else passLoopE sendOk lq sid rest st

/-- Recursive pass of search.rs over the WalkDir items: walkdir error items
are dropped by filter_map; a matching entry behaves as in the shallow pass,
with metadata().unwrap() and send(..).unwrap(). -/
def passLoopW (sendOk : Nat → Bool) (lq : String) (sid : Nat) : List (Option Entry) → RsSt → RsSt
  | [], st => st
  | none :: rest, st => passLoopW sendOk lq sid rest st
  | some e :: rest, st =>
    if nameMatches lq e.name then
      match e.metadata with
      | none => { st with panicked := true }
      | some m =>
        if sendOk st.att then
          passLoopW sendOk lq sid rest
            { st with att := st.att + 1, total := st.total + 1,
                      evs := st.evs ++ [mkResult sid (e, m)] }
        else { st with att := st.att + 1, panicked := true }
    else passLoopW sendOk lq sid rest st

/-- search_files of search.rs: send Started (unwrapped — a failure panics
before anything is delivered), unwrap fs::read_dir on the root (`none`
models its failure), run the shallow pass over the immediate children, then
the recursive pass over the WalkDir items, then send Finished (unwrapped).
Returns the delivered events and whether the invocation panicked. -/
def search_files (sendOk : Nat → Bool) (rootDir : Option (List Entry))
    (walk : List (Option Entry)) (query : String) (sid : Nat) :
    List SearchEvent × Bool :=
  if sendOk 0 then
    let lq := lowerStr query
    let st0 : RsSt := ⟨1, 0, [SearchEvent.started query sid], false⟩
    match rootDir with
    | none => (st0.evs, true)
    | some shallow =>
      let st1 := passLoopE sendOk lq sid shallow st0
      if st1.panicked then (st1.evs, true)
      else
        let st2 := passLoopW sendOk lq sid walk st1
        if st2.panicked then (st2.evs, true)
        else if sendOk st2.att then
          (st2.evs ++ [SearchEvent.finished sid st2.total], false)
        else (st2.evs, true)
  else ([], true)

/-- No name-matching entry of the shallow list has a failed metadata read,
so the shallow pass cannot hit its metadata unwrap. -/
def safeE (lq : String) (l : List Entry) : Bool :=
  l.all fun e => !nameMatches lq e.name || e.metadata.isSome

/-- No name-matching walk entry has a failed metadata read, so the recursive
pass cannot hit its metadata unwrap. -/
def safeW (lq : String) (items : List (Option Entry)) : Bool :=
  items.all fun it =>
    match it with
    | none => true
    | some e => !nameMatches lq e.name || e.metadata.isSome

/-- Recognize a Result event of search.rs. -/
def isResult : SearchEvent → Bool
  | .result .. => true
  | _ => false

/-- Recognize a Started event of search.rs. -/
def isStarted : SearchEvent → Bool
  | .started .. => true
  | _ => false

/-- Recognize a Finished event of search.rs. -/
def isFinished : SearchEvent → Bool
  | .finished .. => true
  | _ => false

end Rs

/-- A directory tree: the item the traversal yields for this node (`none`
models an errored entry) and the subtrees of its children. -/
inductive FTree where
  | node (item : Option Entry) (children : List FTree)

/-- The item of the root node. -/
def FTree.item : FTree → Option Entry
  | .node it _ => it

/-- The children subtrees of the root node. -/
def FTree.children : FTree → List FTree
  | .node _ cs => cs

mutual

/-- Model of the walkdir crate's contract for WalkDir::new(root) with
follow_links(true): the root item itself is yielded first, then every
subtree depth-first in order; errored entries surface as Err items, which
both engines drop via filter_map. -/
def walkdirItems : FTree → List (Option Entry)
  | .node it cs => it :: walkdirItemsL cs

/-- The walkdir items of a forest, in order. -/
def walkdirItemsL : List FTree → List (Option Entry)
  | [] => []
  | t :: ts => walkdirItems t ++ walkdirItemsL ts

end

/-- Model of tokio fs::read_dir on the root as search.rs consumes it: the
immediate children in order; the while-let loop stops at the first errored
entry, so only the leading error-free prefix is visited. -/
def shallowOf (t : FTree) : List Entry :=
  ((t.children.map FTree.item).takeWhile Option.isSome).filterMap id

/-- lib.rs search_files run on the traversal of a directory tree. -/
def Lib.search_files_tree (query : String) (sid : Nat) (t : FTree) :
    List Lib.SearchEvent × Except String Unit :=
  Lib.search_files query sid (walkdirItems t)

/-- search.rs search_files run on a directory tree: the shallow pass sees
the immediate children, the recursive pass the full walkdir traversal of
the same tree (which therefore revisits those children). -/
def Rs.search_files_tree (sendOk : Nat → Bool) (query : String) (sid : Nat) (t : FTree) :
    List Rs.SearchEvent × Bool :=
  Rs.search_files sendOk (some (shallowOf t)) (walkdirItems t) query sid

namespace Pty

/-- Events the pty module emits to the window, keyed by session id: decoded
output chunks on pty://output/{id} and the terminal event on
pty://exit/{id}. -/
inductive PtyEvent where
  | output (sessionId : String) (data : String)
  | exit (sessionId : String)
deriving DecidableEq, Repr

/-- One blocking read from the PTY master's reader: a non-empty chunk
(already lossily decoded) or a read error; the end of the stream list
models the zero-length EOF read. -/
inductive PtyRead where
  | chunk (data : String)
  | readErr
deriving DecidableEq, Repr

/-- Why the pump's read loop ended: EOF, a read error, or a failed output
emission (the window is gone). -/
inductive PumpCause where
  | eof
  | readErr
  | emitFail
deriving DecidableEq, Repr

/-- Outcome of one output-pump task: the delivered events, the cause that
ended the read loop, how many stream items the loop consumed, and how many
times the terminal exit emission was attempted. -/
structure PumpRun where
  events : List PtyEvent
  cause : PumpCause
  reads : Nat
  exitAttempts : Nat
deriving Repr

/-- The read loop of the task spawned by create_pty: a chunk is emitted as
an Output event (a failed emission is logged and breaks the loop), a read
error is logged and breaks the loop, EOF breaks the loop.  Returns the
delivered events, the loop's ending cause, the emit attempts used, and the
stream items consumed. -/
def pumpLoop (emitOk : Nat → Bool) (id : String) :
    List PtyRead → Nat → List PtyEvent × PumpCause × Nat × Nat
  | [], att => ([], PumpCause.eof, att, 0)
  | .readErr :: _, att => ([], PumpCause.readErr, att, 1)
  | .chunk s :: rest, att =>
    if emitOk att then
      let r := pumpLoop emitOk id rest (att + 1)
      (PtyEvent.output id s :: r.1, r.2.1, r.2.2.1, r.2.2.2 + 1)
    else ([], PumpCause.emitFail, att + 1, 1)

/-- The whole pump task of create_pty: run the read loop, then attempt the
exit emission exactly once; if that emission fails it is only logged. -/
def output_pump (emitOk : Nat → Bool) (id : String) (stream : List PtyRead) : PumpRun :=
  let r := pumpLoop emitOk id stream 0
  { events := r.1 ++ (if emitOk r.2.2.1 then [PtyEvent.exit id] else []),
    cause := r.2.1, reads := r.2.2.2, exitAttempts := 1 }

/-- Recognize a chunk read. -/
def isChunk : PtyRead → Bool
  | .chunk _ => true
  | .readErr => false

/-- The payload of a chunk read. -/
def chunkData : PtyRead → String
  | .chunk s => s
  | .readErr => ""

/-- Recognize the terminal exit event. -/
def isExitEv : PtyEvent → Bool
  | .exit _ => true
  | .output .. => false

/-- One stored PTY session as write_pty and resize_pty see it: the outcome
of write_all-then-flush on given data, and the outcome of a resize call. -/
structure PtyInst where
  writeRes : String → Except String Unit
  resizeRes : Nat → Nat → Except String Unit

/-- The ptys map of PtyManager: a string-keyed association of live
sessions (HashMap modelled as a first-match association list). -/
abbrev Registry := List (String × PtyInst)

/-- write_pty: look the id up under the lock; present sessions get the raw
bytes written and flushed, an absent id is the error "PTY not found"; the
map itself is never restructured. -/
def write_pty (reg : Registry) (id : String) (data : String) :
    Except String Unit × Registry :=
  match reg.lookup id with
  | some p => (p.writeRes data, reg)
  | none => (Except.error "PTY not found", reg)

/-- resize_pty: look the id up under the lock and resize; an absent id is
the error "PTY not found"; the map itself is never restructured. -/
def resize_pty (reg : Registry) (id : String) (rows cols : Nat) :
    Except String Unit × Registry :=
  match reg.lookup id with
  | some p => (p.resizeRes rows cols, reg)
  | none => (Except.error "PTY not found", reg)

/-- destroy_pty: remove the id's entry from the map; removing an absent id
simply leaves the map as it was. -/
def destroy_pty (reg : Registry) (id : String) : Registry :=
  reg.filter fun kv => !(kv.1 == id)

end Pty

/-- Convenience constructor for concrete entries: path, name, file_name of
the path equal to the entry name, no canonical form, given metadata. -/
def mkEntry (p n : String) (md : Option Meta) : Entry :=
  { path := p, name := n, pathFileName := some n, canonical := none, metadata := md }

/-- A tree whose root name avoids the query "a" while each of its 150
children matches it: the concrete input behind the capped-traversal bug. -/
def tree150 : FTree :=
  .node (some (mkEntry "/t" "root" (some ⟨false, 0, some 0⟩)))
    (List.replicate 150 (.node (some (mkEntry "/t/a.txt" "a.txt" (some ⟨true, 3, some 7⟩))) []))

/-- The readme entry of the double-report scenario. -/
def entReadme : Entry := mkEntry "/tmp/proj/readme.txt" "readme.txt" (some ⟨true, 10, some 5⟩)

/-- A directory proj containing only readme.txt: the concrete input behind
the shallow-pass double-report bug. -/
def projTree : FTree :=
  .node (some (mkEntry "/tmp/proj" "proj" (some ⟨false, 0, some 1⟩))) [.node (some entReadme) []]

/-- The spec's three-match scenario: proj holds readme.txt, Reader.go and a
subdirectory src containing reader_test.rs. -/
def specTree : FTree :=
  .node (some (mkEntry "/tmp/proj" "proj" (some ⟨false, 0, some 1⟩)))
    [.node (some entReadme) [],
     .node (some (mkEntry "/tmp/proj/Reader.go" "Reader.go" (some ⟨true, 20, some 6⟩))) [],
     .node (some (mkEntry "/tmp/proj/src" "src" (some ⟨false, 0, some 2⟩)))
       [.node (some (mkEntry "/tmp/proj/src/reader_test.rs" "reader_test.rs"
         (some ⟨true, 30, some 8⟩))) []]]

/-- A matching entry whose metadata read fails: the concrete input behind
the search.rs metadata-unwrap panic. -/
def entBad : Entry := mkEntry "/tmp/x/xreadx" "xreadx" none

/-- A directory whose only child matches the query but has unreadable
metadata. -/
def badTree : FTree :=
  .node (some (mkEntry "/tmp/x" "x" (some ⟨false, 0, some 1⟩))) [.node (some entBad) []]

/-- A matching entry whose raw path carries the Windows extended-path marker
and backslash separators. -/
def entWin : Entry :=
  mkEntry "\\\\?\\C:\\docs\\bread.txt" "bread.txt" (some ⟨true, 4, some 9⟩)

/-- A directory holding that Windows-style entry. -/
def winTree : FTree :=
  .node (some (mkEntry "\\\\?\\C:\\docs" "docs" (some ⟨false, 0, some 1⟩))) [.node (some entWin) []]

/-- A single matching root directory with no children. -/
def rootOnlyTree : FTree :=
  .node (some (mkEntry "/tmp/abc" "abc" (some ⟨false, 0, some 4⟩))) []

/-! Lemmas about the matched-item selection shared by both engines. -/

theorem matchedItems_nil (lq : String) : matchedItems lq [] = [] := rfl

theorem matchedItems_cons_none (lq : String) (rest : List (Option Entry)) :
    matchedItems lq (none :: rest) = matchedItems lq rest := by
  simp [matchedItems]

theorem matchedItems_cons_nometa (lq : String) (e : Entry) (rest : List (Option Entry))
    (h : e.metadata = none) :
    matchedItems lq (some e :: rest) = matchedItems lq rest := by
  simp [matchedItems, h]

theorem matchedItems_cons_nomatch (lq : String) (e : Entry) (rest : List (Option Entry))
    (h : nameMatches lq e.name = false) :
    matchedItems lq (some e :: rest) = matchedItems lq rest := by
  cases hm : e.metadata <;> simp [matchedItems, hm, h]

theorem matchedItems_cons_match (lq : String) (e : Entry) (m : Meta)
    (rest : List (Option Entry)) (hm : e.metadata = some m)
    (h : nameMatches lq e.name = true) :
    matchedItems lq (some e :: rest) = (e, m) :: matchedItems lq rest := by
  simp [matchedItems, hm, h]

namespace Lib

theorem sendBatch_nil (sid : Nat) (sent : Nat) (evs : List SearchEvent) :
    sendBatch sid [] sent evs = (sent, evs) := rfl

theorem sendBatch_all (sid : Nat) (batch : List (Entry × Meta)) :
    ∀ (sent : Nat) (evs : List SearchEvent),
      sent + batch.length ≤ MAX_TOTAL_RESULTS →
      sendBatch sid batch sent evs = (sent + batch.length, evs ++ batch.map (mkResult sid)) := by
  induction batch with
  | nil => intro sent evs _; simp [sendBatch]
  | cons x rest ih =>
    intro sent evs h
    simp only [List.length_cons] at h
    have hlt : ¬ (MAX_TOTAL_RESULTS ≤ sent) := by
      simp only [MAX_TOTAL_RESULTS] at h ⊢
      omega
    rw [sendBatch, if_neg hlt, ih (sent + 1) (evs ++ [mkResult sid x]) (by omega)]
    have h1 : sent + 1 + rest.length = sent + (rest.length + 1) := by omega
    rw [h1, List.append_assoc]
    rfl

theorem walkLoop_nil (lq : String) (sid : Nat) (st : LoopSt) :
    walkLoop lq sid [] st = st := rfl

theorem walkLoop_cons_none (lq : String) (sid : Nat) (rest : List (Option Entry)) (st : LoopSt) :
    walkLoop lq sid (none :: rest) st = walkLoop lq sid rest st := rfl

theorem walkLoop_cons_nomatch (lq : String) (sid : Nat) (e : Entry)
    (rest : List (Option Entry)) (st : LoopSt) (h : nameMatches lq e.name = false) :
    walkLoop lq sid (some e :: rest) st = walkLoop lq sid rest st := by
  simp [walkLoop, h]

theorem walkLoop_cons_nometa (lq : String) (sid : Nat) (e : Entry)
    (rest : List (Option Entry)) (st : LoopSt) (h : nameMatches lq e.name = true)
    (hm : e.metadata = none) :
    walkLoop lq sid (some e :: rest) st = walkLoop lq sid rest st := by
  simp [walkLoop, h, hm]

theorem walkLoop_cons_match (lq : String) (sid : Nat) (e : Entry) (m : Meta)
    (rest : List (Option Entry)) (st : LoopSt) (h : nameMatches lq e.name = true)
    (hm : e.metadata = some m) :
    walkLoop lq sid (some e :: rest) st =
      if MAX_TOTAL_RESULTS ≤ (stepSt sid e m st).sent then stepSt sid e m st
      else walkLoop lq sid rest (stepSt sid e m st) := by
  rw [walkLoop]
  simp only [h, hm, stepSt, if_true, ite_true, eq_self_iff_true]

end Lib

namespace Lib

theorem walkLoop_under (lq : String) (sid : Nat) (items : List (Option Entry)) :
    ∀ (T S : Nat) (B : List (Entry × Meta)) (pre : List SearchEvent),
      T = S + B.length → B.length < MAX_RESULTS_PER_BATCH →
      T + (matchedItems lq items).length ≤ MAX_TOTAL_RESULTS →
      (walkLoop lq sid items ⟨T, S, B, pre⟩).total = T + (matchedItems lq items).length
      ∧ sendBatch sid
          ((walkLoop lq sid items ⟨T, S, B, pre⟩).buf.take MAX_RESULTS_PER_BATCH)
          ((walkLoop lq sid items ⟨T, S, B, pre⟩).sent)
          ((walkLoop lq sid items ⟨T, S, B, pre⟩).evs)
        = (T + (matchedItems lq items).length,
           pre ++ (B ++ matchedItems lq items).map (mkResult sid)) := by
  induction items with
  | nil =>
    intro T S B pre hT hB hle
    simp only [matchedItems_nil, List.length_nil, Nat.add_zero, List.append_nil] at hle ⊢
    rw [walkLoop_nil]
    refine ⟨rfl, ?_⟩
    dsimp only
    rw [List.take_of_length_le (le_of_lt hB), sendBatch_all sid B S pre (by omega), hT]
  | cons it rest ih =>
    intro T S B pre hT hB hle
    cases it with
    | none =>
      rw [walkLoop_cons_none]
      simp only [matchedItems_cons_none] at hle ⊢
      exact ih T S B pre hT hB hle
    | some e =>
      cases hnm : nameMatches lq e.name with
      | false =>
        rw [walkLoop_cons_nomatch lq sid e rest _ hnm]
        simp only [matchedItems_cons_nomatch lq e rest hnm] at hle ⊢
        exact ih T S B pre hT hB hle
      | true =>
        cases hmd : e.metadata with
        | none =>
          rw [walkLoop_cons_nometa lq sid e rest _ hnm hmd]
          simp only [matchedItems_cons_nometa lq e rest hmd] at hle ⊢
          exact ih T S B pre hT hB hle
        | some m =>
          rw [walkLoop_cons_match lq sid e m rest _ hnm hmd]
          simp only [matchedItems_cons_match lq e m rest hmd hnm, List.length_cons] at hle ⊢
          by_cases h20 : MAX_RESULTS_PER_BATCH ≤ B.length + 1
          · have hb19 : B.length = 19 := by
              simp only [MAX_RESULTS_PER_BATCH] at h20 hB
              omega
            have hlen : (B ++ [(e, m)]).length = 20 := by simp [hb19]
            have htk : (B ++ [(e, m)]).take MAX_RESULTS_PER_BATCH = B ++ [(e, m)] :=
              List.take_of_length_le (by rw [hlen]; simp [MAX_RESULTS_PER_BATCH])
            have hdp : (B ++ [(e, m)]).drop MAX_RESULTS_PER_BATCH = [] := by
              apply List.drop_eq_nil_of_le
              rw [hlen]
              simp [MAX_RESULTS_PER_BATCH]
            have hsb := sendBatch_all sid (B ++ [(e, m)]) S pre
              (by rw [hlen]; simp only [MAX_TOTAL_RESULTS] at hle ⊢; omega)
            have hstep : stepSt sid e m ⟨T, S, B, pre⟩ =
                ⟨T + 1, S + 20, [], pre ++ (B ++ [(e, m)]).map (mkResult sid)⟩ := by
              rw [stepSt]
              dsimp only
              rw [if_pos (by simpa [List.length_append] using h20), htk, hsb, hdp, hlen]
            rw [hstep]
            by_cases hbrk : MAX_TOTAL_RESULTS ≤ (S + 20)
            · rw [if_pos (by dsimp only; exact hbrk)]
              have hrest0 : (matchedItems lq rest).length = 0 := by
                simp only [MAX_TOTAL_RESULTS] at hbrk hle
                omega
              have hrestnil : matchedItems lq rest = [] := List.length_eq_zero.mp hrest0
              rw [hrestnil]
              constructor
              · simp
              · have hT1 : T + 1 = S + 20 := by omega
                simp [sendBatch_nil, hT1]
            · rw [if_neg (by dsimp only; exact hbrk)]
              have hrec := ih (T + 1) (S + 20) [] (pre ++ (B ++ [(e, m)]).map (mkResult sid))
                (by simp; omega) (by simp [MAX_RESULTS_PER_BATCH])
                (by simp only [MAX_TOTAL_RESULTS] at hle ⊢; omega)
              constructor
              · rw [hrec.1]
                omega
              · rw [hrec.2]
                simp only [Prod.mk.injEq]
                refine ⟨by omega, by simp [List.map_append, List.append_assoc]⟩
          · have hstep : stepSt sid e m ⟨T, S, B, pre⟩ = ⟨T + 1, S, B ++ [(e, m)], pre⟩ := by
              rw [stepSt]
              dsimp only
              rw [if_neg (by simpa [List.length_append] using h20)]
            rw [hstep]
            have hnobrk : ¬ (MAX_TOTAL_RESULTS ≤ S) := by
              simp only [MAX_TOTAL_RESULTS] at hle ⊢
              omega
            rw [if_neg (by dsimp only; exact hnobrk)]
            have hrec := ih (T + 1) S (B ++ [(e, m)]) pre
              (by simp only [List.length_append, List.length_cons, List.length_nil]; omega)
              (by simp only [List.length_append, List.length_cons,
                List.length_nil, MAX_RESULTS_PER_BATCH] at h20 ⊢; omega)
              (by omega)
            constructor
            · rw [hrec.1]
              omega
            · rw [hrec.2]
              simp only [Prod.mk.injEq]
              refine ⟨by omega, by simp [List.map_append, List.append_assoc]⟩

end Lib

namespace Lib

theorem walkLoop_over (lq : String) (sid : Nat) (items : List (Option Entry)) :
    ∀ (T S : Nat) (B : List (Entry × Meta)) (pre : List SearchEvent),
      T = S + B.length → B.length < MAX_RESULTS_PER_BATCH → S % 20 = 0 →
      T < MAX_TOTAL_RESULTS →
      MAX_TOTAL_RESULTS ≤ T + (matchedItems lq items).length →
      walkLoop lq sid items ⟨T, S, B, pre⟩ =
        ⟨MAX_TOTAL_RESULTS, MAX_TOTAL_RESULTS, [],
         pre ++ (B ++ (matchedItems lq items).take (MAX_TOTAL_RESULTS - T)).map
           (mkResult sid)⟩ := by
  induction items with
  | nil =>
    intro T S B pre hT hB hS hlt hge
    simp only [matchedItems_nil, List.length_nil, Nat.add_zero] at hge
    omega
  | cons it rest ih =>
    intro T S B pre hT hB hS hlt hge
    cases it with
    | none =>
      rw [walkLoop_cons_none]
      simp only [matchedItems_cons_none] at hge ⊢
      exact ih T S B pre hT hB hS hlt hge
    | some e =>
      cases hnm : nameMatches lq e.name with
      | false =>
        rw [walkLoop_cons_nomatch lq sid e rest _ hnm]
        simp only [matchedItems_cons_nomatch lq e rest hnm] at hge ⊢
        exact ih T S B pre hT hB hS hlt hge
      | true =>
        cases hmd : e.metadata with
        | none =>
          rw [walkLoop_cons_nometa lq sid e rest _ hnm hmd]
          simp only [matchedItems_cons_nometa lq e rest hmd] at hge ⊢
          exact ih T S B pre hT hB hS hlt hge
        | some m =>
          rw [walkLoop_cons_match lq sid e m rest _ hnm hmd]
          simp only [matchedItems_cons_match lq e m rest hmd hnm, List.length_cons] at hge ⊢
          by_cases h20 : MAX_RESULTS_PER_BATCH ≤ B.length + 1
          · have hb19 : B.length = 19 := by
              simp only [MAX_RESULTS_PER_BATCH] at h20 hB
              omega
            have hlen : (B ++ [(e, m)]).length = 20 := by simp [hb19]
            have htk : (B ++ [(e, m)]).take MAX_RESULTS_PER_BATCH = B ++ [(e, m)] :=
              List.take_of_length_le (by rw [hlen]; simp [MAX_RESULTS_PER_BATCH])
            have hdp : (B ++ [(e, m)]).drop MAX_RESULTS_PER_BATCH = [] := by
              apply List.drop_eq_nil_of_le
              rw [hlen]
              simp [MAX_RESULTS_PER_BATCH]
            have hsb := sendBatch_all sid (B ++ [(e, m)]) S pre
              (by rw [hlen]; simp only [MAX_TOTAL_RESULTS] at hlt ⊢; omega)
            have hstep : stepSt sid e m ⟨T, S, B, pre⟩ =
                ⟨T + 1, S + 20, [], pre ++ (B ++ [(e, m)]).map (mkResult sid)⟩ := by
              rw [stepSt]
              dsimp only
              rw [if_pos (by simpa [List.length_append] using h20), htk, hsb, hdp, hlen]
            rw [hstep]
            by_cases hbrk : MAX_TOTAL_RESULTS ≤ (S + 20)
            · rw [if_pos (by dsimp only; exact hbrk)]
              have hT99 : T + 1 = MAX_TOTAL_RESULTS := by
                simp only [MAX_TOTAL_RESULTS] at hbrk hlt ⊢
                omega
              have h1 : MAX_TOTAL_RESULTS - T = 1 := by omega
              have hS20 : S + 20 = MAX_TOTAL_RESULTS := by
                simp only [MAX_TOTAL_RESULTS] at hbrk hlt ⊢
                omega
              rw [h1, hT99, hS20]
              simp
            · rw [if_neg (by dsimp only; exact hbrk)]
              have hrec := ih (T + 1) (S + 20) [] (pre ++ (B ++ [(e, m)]).map (mkResult sid))
                (by simp only [List.length_nil]; omega)
                (by simp [MAX_RESULTS_PER_BATCH])
                (by omega)
                (by simp only [MAX_TOTAL_RESULTS] at hbrk ⊢; omega)
                (by simp only [MAX_TOTAL_RESULTS] at hge ⊢; omega)
              rw [hrec]
              have h1 : MAX_TOTAL_RESULTS - T = (MAX_TOTAL_RESULTS - (T + 1)) + 1 := by
                simp only [MAX_TOTAL_RESULTS] at hlt ⊢
                omega
              rw [h1, List.take_succ_cons]
              simp [List.map_append, List.append_assoc]
          · have hstep : stepSt sid e m ⟨T, S, B, pre⟩ = ⟨T + 1, S, B ++ [(e, m)], pre⟩ := by
              rw [stepSt]
              dsimp only
              rw [if_neg (by simpa [List.length_append] using h20)]
            rw [hstep]
            have hnobrk : ¬ (MAX_TOTAL_RESULTS ≤ S) := by
              simp only [MAX_TOTAL_RESULTS] at hlt ⊢
              omega
            rw [if_neg (by dsimp only; exact hnobrk)]
            have hlt1 : T + 1 < MAX_TOTAL_RESULTS := by
              simp only [MAX_RESULTS_PER_BATCH] at h20 hB
              simp only [MAX_TOTAL_RESULTS] at hlt ⊢
              omega
            have hrec := ih (T + 1) S (B ++ [(e, m)]) pre
              (by simp only [List.length_append, List.length_cons, List.length_nil]; omega)
              (by simp only [List.length_append, List.length_cons,
                List.length_nil, MAX_RESULTS_PER_BATCH] at h20 ⊢; omega)
              hS hlt1
              (by omega)
            rw [hrec]
            have h1 : MAX_TOTAL_RESULTS - T = (MAX_TOTAL_RESULTS - (T + 1)) + 1 := by
              simp only [MAX_TOTAL_RESULTS] at hlt ⊢
              omega
            rw [h1, List.take_succ_cons]
            simp [List.map_append, List.append_assoc]

end Lib

namespace Lib

theorem lib_search_spec (query : String) (sid : Nat) (items : List (Option Entry)) :
    (search_files query sid items).1 =
      SearchEvent.started query sid ::
        ((matchedItems (lowerStr query) items).take MAX_TOTAL_RESULTS).map (mkResult sid)
        ++ [SearchEvent.finished sid
              (min (matchedItems (lowerStr query) items).length MAX_TOTAL_RESULTS) false] := by
  by_cases hle : (matchedItems (lowerStr query) items).length ≤ MAX_TOTAL_RESULTS
  · have h := walkLoop_under (lowerStr query) sid items 0 0 []
      [SearchEvent.started query sid] (by simp) (by simp [MAX_RESULTS_PER_BATCH])
      (by simpa using hle)
    simp only [search_files]
    rw [h.2, h.1]
    simp only [Nat.zero_add, List.nil_append]
    rw [List.take_of_length_le hle, Nat.min_eq_left hle]
    simp [Nat.lt_irrefl]
  · have hge : MAX_TOTAL_RESULTS ≤ 0 + (matchedItems (lowerStr query) items).length := by
      omega
    have h := walkLoop_over (lowerStr query) sid items 0 0 []
      [SearchEvent.started query sid] (by simp) (by simp [MAX_RESULTS_PER_BATCH])
      (by simp) (by simp [MAX_TOTAL_RESULTS]) hge
    simp only [search_files]
    rw [h]
    have hmin : min (matchedItems (lowerStr query) items).length MAX_TOTAL_RESULTS
        = MAX_TOTAL_RESULTS := Nat.min_eq_right (by omega)
    rw [hmin]
    simp [sendBatch_nil, Nat.lt_irrefl]

end Lib

theorem matchedItems_filter_good (lq : String) (items : List (Option Entry)) :
    matchedItems lq (items.filter goodItem) = matchedItems lq items := by
  induction items with
  | nil => rfl
  | cons it rest ih =>
    cases it with
    | none => simpa [goodItem, matchedItems_cons_none] using ih
    | some e =>
      cases hmd : e.metadata with
      | none =>
        rw [matchedItems_cons_nometa lq e rest hmd]
        simpa [goodItem, hmd] using ih
      | some m =>
        cases hnm : nameMatches lq e.name with
        | false =>
          rw [matchedItems_cons_nomatch lq e rest hnm]
          rw [List.filter_cons]
          simp only [goodItem, hmd, Option.isSome_some, if_true]
          rw [matchedItems_cons_nomatch lq e _ hnm]
          exact ih
        | true =>
          rw [matchedItems_cons_match lq e m rest hmd hnm]
          rw [List.filter_cons]
          simp only [goodItem, hmd, Option.isSome_some, if_true]
          rw [matchedItems_cons_match lq e m _ hmd hnm, ih]

theorem matchedEntries_nil (lq : String) : matchedEntries lq [] = [] := rfl

theorem matchedEntries_cons_nomatch (lq : String) (e : Entry) (l : List Entry)
    (h : nameMatches lq e.name = false) :
    matchedEntries lq (e :: l) = matchedEntries lq l := by
  cases hm : e.metadata <;> simp [matchedEntries, hm, h]

theorem matchedEntries_cons_nometa (lq : String) (e : Entry) (l : List Entry)
    (hm : e.metadata = none) :
    matchedEntries lq (e :: l) = matchedEntries lq l := by
  simp [matchedEntries, hm]

theorem matchedEntries_cons_match (lq : String) (e : Entry) (m : Meta) (l : List Entry)
    (hm : e.metadata = some m) (h : nameMatches lq e.name = true) :
    matchedEntries lq (e :: l) = (e, m) :: matchedEntries lq l := by
  simp [matchedEntries, hm, h]

namespace Rs

theorem passLoopW_filter (sendOk : Nat → Bool) (lq : String) (sid : Nat)
    (items : List (Option Entry)) : ∀ (st : RsSt),
    passLoopW sendOk lq sid (items.filter Option.isSome) st = passLoopW sendOk lq sid items st := by
  induction items with
  | nil => intro st; rfl
  | cons it rest ih =>
    intro st
    cases it with
    | none => simpa [passLoopW] using ih st
    | some e =>
      rw [List.filter_cons]
      simp only [Option.isSome_some, if_true]
      rw [passLoopW, passLoopW]
      cases hnm : nameMatches lq e.name with
      | false => simpa [hnm] using ih st
      | true =>
        cases hmd : e.metadata with
        | none => simp [hnm, hmd]
        | some m =>
          simp only [hnm, hmd, if_true, ite_true, eq_self_iff_true]
          cases hso : sendOk st.att with
          | false => simp [hso]
          | true => simpa [hso] using ih _
end Rs

namespace Rs

theorem passLoopE_ok (sendOk : Nat → Bool) (hsOk : ∀ n, sendOk n = true) (lq : String)
    (sid : Nat) (l : List Entry) : ∀ (a t : Nat) (evs : List SearchEvent),
    safeE lq l = true →
    passLoopE sendOk lq sid l ⟨a, t, evs, false⟩ =
      ⟨a + (matchedEntries lq l).length, t + (matchedEntries lq l).length,
       evs ++ (matchedEntries lq l).map (mkResult sid), false⟩ := by
  induction l with
  | nil => intro a t evs _; simp [passLoopE, matchedEntries_nil]
  | cons e rest ih =>
    intro a t evs hsafe
    rw [passLoopE]
    cases hnm : nameMatches lq e.name with
    | false =>
      rw [matchedEntries_cons_nomatch lq e rest hnm]
      simp only [hnm, Bool.false_eq_true, if_false]
      refine ih a t evs ?_
      simp only [safeE, List.all_cons, Bool.and_eq_true] at hsafe
      exact hsafe.2
    | true =>
      simp only [safeE, List.all_cons, Bool.and_eq_true, hnm, Bool.not_true,
        Bool.false_or] at hsafe
      obtain ⟨m, hmd⟩ := Option.isSome_iff_exists.mp hsafe.1
      rw [matchedEntries_cons_match lq e m rest hmd hnm]
      simp only [hnm, hmd, hsOk, if_true, ite_true, eq_self_iff_true]
      have hrec := ih (a + 1) (t + 1) (evs ++ [mkResult sid (e, m)]) hsafe.2
      rw [hrec]
      simp only [RsSt.mk.injEq, List.length_cons, List.map_cons, List.append_assoc,
        List.singleton_append]
      exact ⟨by omega, by omega, trivial, trivial⟩

theorem passLoopW_ok (sendOk : Nat → Bool) (hsOk : ∀ n, sendOk n = true) (lq : String)
    (sid : Nat) (items : List (Option Entry)) : ∀ (a t : Nat) (evs : List SearchEvent),
    safeW lq items = true →
    passLoopW sendOk lq sid items ⟨a, t, evs, false⟩ =
      ⟨a + (matchedItems lq items).length, t + (matchedItems lq items).length,
       evs ++ (matchedItems lq items).map (mkResult sid), false⟩ := by
  induction items with
  | nil => intro a t evs _; simp [passLoopW, matchedItems_nil]
  | cons it rest ih =>
    intro a t evs hsafe
    cases it with
    | none =>
      rw [passLoopW, matchedItems_cons_none]
      refine ih a t evs ?_
      simp only [safeW, List.all_cons, Bool.and_eq_true] at hsafe
      exact hsafe.2
    | some e =>
      rw [passLoopW]
      cases hnm : nameMatches lq e.name with
      | false =>
        rw [matchedItems_cons_nomatch lq e rest hnm]
        simp only [hnm, Bool.false_eq_true, if_false]
        refine ih a t evs ?_
        simp only [safeW, List.all_cons, Bool.and_eq_true] at hsafe
        exact hsafe.2
      | true =>
        simp only [safeW, List.all_cons, Bool.and_eq_true, hnm, Bool.not_true,
          Bool.false_or] at hsafe
        obtain ⟨m, hmd⟩ := Option.isSome_iff_exists.mp hsafe.1
        rw [matchedItems_cons_match lq e m rest hmd hnm]
        simp only [hnm, hmd, hsOk, if_true, ite_true, eq_self_iff_true]
        have hrec := ih (a + 1) (t + 1) (evs ++ [mkResult sid (e, m)]) hsafe.2
        rw [hrec]
        simp only [RsSt.mk.injEq, List.length_cons, List.map_cons, List.append_assoc,
          List.singleton_append]
        exact ⟨by omega, by omega, trivial, trivial⟩

theorem rs_search_ok (sendOk : Nat → Bool) (hsOk : ∀ n, sendOk n = true)
    (shallow : List Entry) (walk : List (Option Entry)) (q : String) (sid : Nat)
    (hsE : safeE (lowerStr q) shallow = true) (hsW : safeW (lowerStr q) walk = true) :
    search_files sendOk (some shallow) walk q sid =
      (SearchEvent.started q sid ::
        ((matchedEntries (lowerStr q) shallow).map (mkResult sid)
          ++ (matchedItems (lowerStr q) walk).map (mkResult sid)
          ++ [SearchEvent.finished sid
              ((matchedEntries (lowerStr q) shallow).length
                + (matchedItems (lowerStr q) walk).length)]),
       false) := by
  rw [search_files]
  simp only [hsOk, if_true, ite_true]
  rw [passLoopE_ok sendOk hsOk (lowerStr q) sid shallow 1 0
    [SearchEvent.started q sid] hsE]
  simp only
  rw [passLoopW_ok sendOk hsOk (lowerStr q) sid walk
    (1 + (matchedEntries (lowerStr q) shallow).length)
    (0 + (matchedEntries (lowerStr q) shallow).length)
    ([SearchEvent.started q sid]
      ++ (matchedEntries (lowerStr q) shallow).map (mkResult sid)) hsW]
  simp only [hsOk, if_true, ite_true, Bool.false_eq_true, if_false]
  simp [List.append_assoc, Nat.zero_add]

end Rs

namespace Rs

theorem passLoopE_take (sendOk : Nat → Bool) (lq : String) (sid : Nat) (l : List Entry) :
    ∀ st : RsSt, ∃ k,
      (passLoopE sendOk lq sid l st).evs
        = st.evs ++ ((matchedEntries lq l).take k).map (mkResult sid) := by
  induction l with
  | nil => intro st; exact ⟨0, by simp [passLoopE]⟩
  | cons e rest ih =>
    intro st
    rw [passLoopE]
    cases hnm : nameMatches lq e.name with
    | false =>
      simp only [hnm, Bool.false_eq_true, if_false]
      rw [matchedEntries_cons_nomatch lq e rest hnm]
      exact ih st
    | true =>
      cases hmd : e.metadata with
      | none =>
        simp only [hnm, hmd, if_true, ite_true, eq_self_iff_true]
        exact ⟨0, by simp⟩
      | some m =>
        simp only [hnm, hmd, if_true, ite_true, eq_self_iff_true]
        rw [matchedEntries_cons_match lq e m rest hmd hnm]
        cases hso : sendOk st.att with
        | false =>
          simp only [hso, Bool.false_eq_true, if_false]
          exact ⟨0, by simp⟩
        | true =>
          simp only [hso, if_true, ite_true, eq_self_iff_true]
          obtain ⟨k, hk⟩ :=
            ih ⟨st.att + 1, st.total + 1, st.evs ++ [mkResult sid (e, m)], st.panicked⟩
          refine ⟨k + 1, ?_⟩
          rw [hk]
          simp [List.take_succ_cons, List.append_assoc]

theorem passLoopW_take (sendOk : Nat → Bool) (lq : String) (sid : Nat)
    (items : List (Option Entry)) :
    ∀ st : RsSt, ∃ k,
      (passLoopW sendOk lq sid items st).evs
        = st.evs ++ ((matchedItems lq items).take k).map (mkResult sid) := by
  induction items with
  | nil => intro st; exact ⟨0, by simp [passLoopW]⟩
  | cons it rest ih =>
    intro st
    cases it with
    | none =>
      rw [passLoopW, matchedItems_cons_none]
      exact ih st
    | some e =>
      rw [passLoopW]
      cases hnm : nameMatches lq e.name with
      | false =>
        simp only [hnm, Bool.false_eq_true, if_false]
        rw [matchedItems_cons_nomatch lq e rest hnm]
        exact ih st
      | true =>
        cases hmd : e.metadata with
        | none =>
          simp only [hnm, hmd, if_true, ite_true, eq_self_iff_true]
          exact ⟨0, by simp⟩
        | some m =>
          simp only [hnm, hmd, if_true, ite_true, eq_self_iff_true]
          rw [matchedItems_cons_match lq e m rest hmd hnm]
          cases hso : sendOk st.att with
          | false =>
            simp only [hso, Bool.false_eq_true, if_false]
            exact ⟨0, by simp⟩
          | true =>
            simp only [hso, if_true, ite_true, eq_self_iff_true]
            obtain ⟨k, hk⟩ :=
              ih ⟨st.att + 1, st.total + 1, st.evs ++ [mkResult sid (e, m)], st.panicked⟩
            refine ⟨k + 1, ?_⟩
            rw [hk]
            simp [List.take_succ_cons, List.append_assoc]

theorem rs_shape (sendOk : Nat → Bool) (rootDir : Option (List Entry))
    (walk : List (Option Entry)) (q : String) (sid : Nat) :
    ∃ k1 k2 tot,
      ((search_files sendOk rootDir walk q sid).1 = []
        ∧ (search_files sendOk rootDir walk q sid).2 = true)
      ∨ ((search_files sendOk rootDir walk q sid).1 = SearchEvent.started q sid ::
            (((matchedEntries (lowerStr q) (rootDir.getD [])).take k1).map (mkResult sid)
              ++ ((matchedItems (lowerStr q) walk).take k2).map (mkResult sid))
          ∧ (search_files sendOk rootDir walk q sid).2 = true)
      ∨ ((search_files sendOk rootDir walk q sid).1 = SearchEvent.started q sid ::
            (((matchedEntries (lowerStr q) (rootDir.getD [])).take k1).map (mkResult sid)
              ++ ((matchedItems (lowerStr q) walk).take k2).map (mkResult sid)
              ++ [SearchEvent.finished sid tot])
          ∧ (search_files sendOk rootDir walk q sid).2 = false) := by
  cases hs0 : sendOk 0 with
  | false =>
    refine ⟨0, 0, 0, Or.inl ⟨?_, ?_⟩⟩ <;> simp [search_files, hs0]
  | true =>
    cases rootDir with
    | none =>
      refine ⟨0, 0, 0, Or.inr (Or.inl ⟨?_, ?_⟩)⟩ <;> simp [search_files, hs0]
    | some shallow =>
      obtain ⟨k1, hk1⟩ := passLoopE_take sendOk (lowerStr q) sid shallow
        ⟨1, 0, [SearchEvent.started q sid], false⟩
      cases hp1 : (passLoopE sendOk (lowerStr q) sid shallow
          ⟨1, 0, [SearchEvent.started q sid], false⟩).panicked with
      | true =>
        refine ⟨k1, 0, 0, Or.inr (Or.inl ⟨?_, ?_⟩)⟩ <;>
          simp [search_files, hs0, hp1, hk1]
      | false =>
        obtain ⟨k2, hk2⟩ := passLoopW_take sendOk (lowerStr q) sid walk
          (passLoopE sendOk (lowerStr q) sid shallow
            ⟨1, 0, [SearchEvent.started q sid], false⟩)
        cases hp2 : (passLoopW sendOk (lowerStr q) sid walk
            (passLoopE sendOk (lowerStr q) sid shallow
              ⟨1, 0, [SearchEvent.started q sid], false⟩)).panicked with
        | true =>
          refine ⟨k1, k2, 0, Or.inr (Or.inl ⟨?_, ?_⟩)⟩ <;>
            simp [search_files, hs0, hp1, hp2, hk2, hk1, List.append_assoc]
        | false =>
          cases hsA : sendOk (passLoopW sendOk (lowerStr q) sid walk
              (passLoopE sendOk (lowerStr q) sid shallow
                ⟨1, 0, [SearchEvent.started q sid], false⟩)).att with
          | false =>
            refine ⟨k1, k2, 0, Or.inr (Or.inl ⟨?_, ?_⟩)⟩ <;>
              simp [search_files, hs0, hp1, hp2, hsA, hk2, hk1, List.append_assoc]
          | true =>
            refine ⟨k1, k2, (passLoopW sendOk (lowerStr q) sid walk
              (passLoopE sendOk (lowerStr q) sid shallow
                ⟨1, 0, [SearchEvent.started q sid], false⟩)).total,
              Or.inr (Or.inr ⟨?_, ?_⟩)⟩ <;>
              simp [search_files, hs0, hp1, hp2, hsA, hk2, hk1, List.append_assoc]

end Rs

namespace Pty

theorem pumpLoop_ok (emitOk : Nat → Bool) (hOk : ∀ n, emitOk n = true) (id : String)
    (stream : List PtyRead) : ∀ att : Nat,
    pumpLoop emitOk id stream att =
      ((stream.takeWhile isChunk).map (fun r => PtyEvent.output id (chunkData r)),
       (if stream.all isChunk then PumpCause.eof else PumpCause.readErr),
       att + (stream.takeWhile isChunk).length,
       (stream.takeWhile isChunk).length + (if stream.all isChunk then 0 else 1)) := by
  induction stream with
  | nil => intro att; simp [pumpLoop]
  | cons r rest ih =>
    intro att
    cases r with
    | readErr => simp [pumpLoop, List.takeWhile_cons, isChunk, List.all_cons]
    | chunk s =>
      rw [pumpLoop]
      simp only [hOk, if_true, ite_true]
      rw [ih (att + 1)]
      cases hall : rest.all isChunk with
      | true =>
        simp [List.takeWhile_cons, isChunk, chunkData, List.all_cons, hall, Prod.mk.injEq]
        omega
      | false =>
        simp [List.takeWhile_cons, isChunk, chunkData, List.all_cons, hall, Prod.mk.injEq]
        omega

theorem pumpLoop_no_exit (emitOk : Nat → Bool) (id : String) (stream : List PtyRead) :
    ∀ att : Nat, ∀ ev ∈ (pumpLoop emitOk id stream att).1, isExitEv ev = false := by
  induction stream with
  | nil => intro att ev hev; simp [pumpLoop] at hev
  | cons r rest ih =>
    intro att ev hev
    cases r with
    | readErr => simp [pumpLoop] at hev
    | chunk s =>
      rw [pumpLoop] at hev
      cases hE : emitOk att with
      | false => simp [hE] at hev
      | true =>
        simp only [hE, if_true, ite_true, List.mem_cons] at hev
        cases hev with
        | inl h => rw [h]; rfl
        | inr h => exact ih (att + 1) ev h

theorem pump_exit_once (emitOk : Nat → Bool) (id : String) (stream : List PtyRead) :
    (output_pump emitOk id stream).events.countP isExitEv ≤ 1 := by
  rw [output_pump]
  simp only [List.countP_append]
  have h0 : (pumpLoop emitOk id stream 0).1.countP isExitEv = 0 := by
    rw [List.countP_eq_zero]
    intro ev hev
    simp [pumpLoop_no_exit emitOk id stream 0 ev hev]
  rw [h0]
  cases emitOk (pumpLoop emitOk id stream 0).2.2.1 <;> simp [List.countP_cons, isExitEv]

theorem destroy_lookup (reg : Registry) (id : String) :
    (destroy_pty reg id).lookup id = none := by
  induction reg with
  | nil => rfl
  | cons kv rest ih =>
    obtain ⟨k, v⟩ := kv
    by_cases hk : k = id
    · subst hk
      rw [destroy_pty, List.filter_cons]
      simp only [beq_self_eq_true, Bool.not_true, Bool.false_eq_true, if_false, ite_false]
      simpa [destroy_pty] using ih
    · have hkv : (k == id) = false := beq_eq_false_iff_ne.mpr hk
      have hkv2 : (id == k) = false := beq_eq_false_iff_ne.mpr (Ne.symm hk)
      rw [destroy_pty, List.filter_cons]
      simp only [hkv, Bool.not_false, if_true, ite_true]
      simp only [List.lookup, hkv2]
      simpa [destroy_pty] using ih

theorem destroy_absent (reg : Registry) (id : String) (h : reg.lookup id = none) :
    destroy_pty reg id = reg := by
  induction reg with
  | nil => rfl
  | cons kv rest ih =>
    obtain ⟨k, v⟩ := kv
    by_cases hk : k = id
    · subst hk
      simp [List.lookup] at h
    · have hkv : (k == id) = false := beq_eq_false_iff_ne.mpr hk
      have hkv2 : (id == k) = false := beq_eq_false_iff_ne.mpr (Ne.symm hk)
      simp only [List.lookup, hkv2] at h
      rw [destroy_pty, List.filter_cons]
      simp only [hkv, Bool.not_false, if_true, ite_true]
      have hr := ih h
      rw [destroy_pty] at hr
      rw [hr]

end Pty

theorem leadsWith_nil (l : List Char) : leadsWith [] l = true := by
  cases l <;> rfl

theorem leadsWith_cons (a : Char) (as : List Char) (b : Char) (bs : List Char) :
    leadsWith (a :: as) (b :: bs) = (a == b && leadsWith as bs) := rfl

theorem replaceFuel_single_not_mem (a b : Char) (hab : a ≠ b) :
    ∀ (fuel : Nat) (s : List Char), s.length ≤ fuel →
      a ∉ replaceFuel [a] [b] fuel s := by
  intro fuel
  induction fuel with
  | zero =>
    intro s hs
    rw [List.length_eq_zero.mp (Nat.le_zero.mp hs)]
    simp [replaceFuel]
  | succ fuel ih =>
    intro s hs
    cases s with
    | nil => simp [replaceFuel]
    | cons c rest =>
      rw [replaceFuel]
      have hcond : (!(List.isEmpty [a]) && leadsWith [a] (c :: rest)) = (a == c) := by
        simp [leadsWith_cons, leadsWith_nil]
      rw [hcond]
      by_cases hac : a = c
      · subst hac
        simp only [beq_self_eq_true, if_true, ite_true, eq_self_iff_true]
        simp only [List.length_singleton, List.drop_succ_cons, List.drop_zero,
          List.singleton_append, List.mem_cons]
        push_neg
        exact ⟨hab, ih rest (by simpa using hs)⟩
      · rw [show (a == c) = false from beq_eq_false_iff_ne.mpr hac]
        simp only [Bool.false_eq_true, if_false, ite_false, List.mem_cons]
        push_neg
        exact ⟨hac, ih rest (by simpa using hs)⟩

theorem clean_path_no_backslash (p : String) : '\\' ∉ (clean_path p).data := by
  rw [clean_path]
  show '\\' ∉ replaceL ['\\'] ['/'] (replaceL extPat [] p.data)
  rw [replaceL]
  exact replaceFuel_single_not_mem '\\' '/' (by decide) _ _ (le_refl _)

theorem hasSub_extPat_eq_false (l : List Char) (h : '\\' ∉ l) : hasSub extPat l = false := by
  induction l with
  | nil => rfl
  | cons c rest ih =>
    have hrest : '\\' ∉ rest := fun hm => h (List.mem_cons_of_mem _ hm)
    have hc : ('\\' == c) = false := beq_eq_false_iff_ne.mpr (by
      intro hx
      exact h (hx ▸ List.mem_cons_self _ _))
    rw [hasSub]
    rw [show leadsWith extPat (c :: rest) = false from by simp [extPat, leadsWith_cons, hc]]
    rw [ih hrest]
    rfl

theorem walkdirItems_node (t : FTree) :
    walkdirItems t = t.item :: walkdirItemsL t.children := by
  cases t
  rfl

namespace Lib

theorem countP_result_map (sid : Nat) (l : List (Entry × Meta)) :
    ((l.map (mkResult sid)).countP isResult) = l.length := by
  have h : ∀ ev ∈ l.map (mkResult sid), isResult ev = true := by
    intro ev hev
    obtain ⟨x, hx, rfl⟩ := List.mem_map.mp hev
    rfl
  rw [List.countP_eq_length.mpr h, List.length_map]

theorem countP_finished_map (sid : Nat) (l : List (Entry × Meta)) :
    ((l.map (mkResult sid)).countP isFinished) = 0 := by
  rw [List.countP_eq_zero]
  intro ev hev
  obtain ⟨x, hx, rfl⟩ := List.mem_map.mp hev
  simp [mkResult, isFinished]

theorem filter_result_map (sid : Nat) (l : List (Entry × Meta)) :
    (l.map (mkResult sid)).filter isResult = l.map (mkResult sid) := by
  rw [List.filter_eq_self]
  intro ev hev
  obtain ⟨x, hx, rfl⟩ := List.mem_map.mp hev
  rfl

theorem deliveredFrom_sublist (sendOk : Nat → Bool) (evs : List SearchEvent) :
    ∀ n : Nat, List.Sublist (deliveredFrom sendOk evs n) evs := by
  induction evs with
  | nil => intro n; exact List.Sublist.refl []
  | cons e rest ih =>
    intro n
    rw [deliveredFrom]
    cases sendOk n with
    | true =>
      simp only [if_true, ite_true, eq_self_iff_true]
      exact List.Sublist.cons₂ e (ih (n + 1))
    | false =>
      simp only [Bool.false_eq_true, if_false, ite_false]
      exact List.Sublist.cons e (ih (n + 1))

end Lib

theorem matchedItems_clean (lq : String) (items : List (Option Entry))
    (h : items.all goodItem = true) :
    (matchedItems lq items).map Prod.fst
      = (items.filterMap id).filter (fun e => nameMatches lq e.name) := by
  induction items with
  | nil => rfl
  | cons it rest ih =>
    simp only [List.all_cons, Bool.and_eq_true] at h
    cases it with
    | none => simp [goodItem] at h
    | some e =>
      obtain ⟨m, hmd⟩ := Option.isSome_iff_exists.mp (by simpa [goodItem] using h.1)
      cases hnm : nameMatches lq e.name with
      | false =>
        rw [matchedItems_cons_nomatch lq e rest hnm]
        simp [List.filterMap_cons, List.filter_cons, hnm, ih h.2]
      | true =>
        rw [matchedItems_cons_match lq e m rest hmd hnm]
        simp [List.filterMap_cons, List.filter_cons, hnm, ih h.2]

/-- C1: claimed, for a tree with 150 matching entries, exactly 100 Result
events with totalMatches = 150 and hasMore = true.  The code does send
exactly 100 Result events, but it breaks out of the traversal at the 100th
match, so on tree150 (150 matching children) the full traversal holds 150
name matches while Finished reports totalMatches = 100 and hasMore = false,
contradicting the claim. -/
theorem c1_capped_traversal_bug :
    ((walkdirItems tree150).filterMap id).countP
        (fun e => nameMatches (lowerStr "a") e.name) = 150
    ∧ ((Lib.search_files_tree "a" 1 tree150).1.countP Lib.isResult) = 100
    ∧ (Lib.search_files_tree "a" 1 tree150).1.getLast?
        = some (Lib.SearchEvent.finished 1 100 false)
    ∧ ¬ ((Lib.search_files_tree "a" 1 tree150).1.getLast?
        = some (Lib.SearchEvent.finished 1 150 true)) := by
  refine ⟨by decide, by decide, by decide, by decide⟩

/-- C2: when a search's full traversal yields at most 100 matching entries
(every entry readable, an entry matching iff its lowercased name contains
the lowercased query), lib.rs delivers one Result per match in traversal
order, and Finished reports totalMatches equal to the number of Result
events sent and hasMore = false. -/
theorem c2_small_search_delivers_all (query : String) (sid : Nat) (t : FTree)
    (hclean : (walkdirItems t).all goodItem = true)
    (hle : (((walkdirItems t).filterMap id).filter
        (fun e => nameMatches (lowerStr query) e.name)).length ≤ MAX_TOTAL_RESULTS) :
    (Lib.search_files_tree query sid t).1 =
      Lib.SearchEvent.started query sid ::
        ((matchedItems (lowerStr query) (walkdirItems t)).map (Lib.mkResult sid)
          ++ [Lib.SearchEvent.finished sid
              (matchedItems (lowerStr query) (walkdirItems t)).length false])
    ∧ (matchedItems (lowerStr query) (walkdirItems t)).map Prod.fst
        = ((walkdirItems t).filterMap id).filter
            (fun e => nameMatches (lowerStr query) e.name)
    ∧ ((Lib.search_files_tree query sid t).1.countP Lib.isResult)
        = (matchedItems (lowerStr query) (walkdirItems t)).length := by
  have hmf := matchedItems_clean (lowerStr query) (walkdirItems t) hclean
  have hmc : (matchedItems (lowerStr query) (walkdirItems t)).length
      ≤ MAX_TOTAL_RESULTS := by
    have hlen := congrArg List.length hmf
    simp only [List.length_map] at hlen
    omega
  refine ⟨?_, hmf, ?_⟩
  · rw [Lib.search_files_tree, Lib.lib_search_spec]
    rw [List.take_of_length_le hmc, Nat.min_eq_left hmc, List.cons_append]
  · rw [Lib.search_files_tree, Lib.lib_search_spec]
    rw [List.take_of_length_le hmc]
    simp only [List.countP_cons, List.countP_append]
    rw [Lib.countP_result_map]
    simp [Lib.isResult]

/-- C2 witness: the spec's scenario, a proj directory holding readme.txt,
Reader.go and src/reader_test.rs searched for "read": three matches, all
delivered, counted by Finished. -/
theorem c2_small_search_delivers_all_witness :
    (walkdirItems specTree).all goodItem = true
    ∧ (((walkdirItems specTree).filterMap id).filter
        (fun e => nameMatches (lowerStr "read") e.name)).length ≤ MAX_TOTAL_RESULTS
    ∧ ((Lib.search_files_tree "read" 9 specTree).1.countP Lib.isResult)
        = (matchedItems (lowerStr "read") (walkdirItems specTree)).length :=
  ⟨by decide, by decide,
    (c2_small_search_delivers_all "read" 9 specTree (by decide) (by decide)).2.2⟩

/-- C3: claimed that the shallow-then-recursive variant never reports a
match twice.  On projTree (proj containing only readme.txt) with query
"read", search.rs emits the readme.txt Result in the shallow pass and again
when the recursive pass revisits the same entry, and counts it twice in
totalMatches: two identical Result events and Finished total 2 for a single
matching file. -/
theorem c3_double_report_bug :
    (Rs.search_files_tree (fun _ => true) "read" 5 projTree).1 =
      [Rs.SearchEvent.started "read" 5,
       Rs.SearchEvent.result 5 "/tmp/proj/readme.txt" "readme.txt" true 10 5,
       Rs.SearchEvent.result 5 "/tmp/proj/readme.txt" "readme.txt" true 10 5,
       Rs.SearchEvent.finished 5 2]
    ∧ ((Rs.search_files_tree (fun _ => true) "read" 5 projTree).1.count
        (Rs.SearchEvent.result 5 "/tmp/proj/readme.txt" "readme.txt" true 10 5)) = 2 := by
  refine ⟨by decide, by decide⟩

/-- C4 (amended): in the lib.rs engine, per-entry traversal errors are
skipped silently: erasing all error items (unreadable entries, failed
metadata reads) leaves the whole command result unchanged, exactly one
Finished event is sent, and it closes the trace; in the search.rs variant
only walkdir error items are skipped (a matching entry whose metadata read
fails instead panics the invocation, see the counterexample). -/
theorem c4_lib_skips_entry_errors (query : String) (sid : Nat) (items : List (Option Entry)) :
    Lib.search_files query sid items = Lib.search_files query sid (items.filter goodItem)
    ∧ ((Lib.search_files query sid items).1.countP Lib.isFinished) = 1
    ∧ (∃ tot : Nat, (Lib.search_files query sid items).1.getLast?
        = some (Lib.SearchEvent.finished sid tot false))
    ∧ (∀ (sendOk : Nat → Bool) (rootDir : Option (List Entry)) (walk : List (Option Entry)),
        Rs.search_files sendOk rootDir walk query sid
          = Rs.search_files sendOk rootDir (walk.filter Option.isSome) query sid) := by
  refine ⟨?_, ?_, ?_, ?_⟩
  · rw [Prod.ext_iff]
    constructor
    · rw [Lib.lib_search_spec, Lib.lib_search_spec, matchedItems_filter_good]
    · rfl
  · rw [Lib.lib_search_spec]
    simp only [List.countP_cons, List.countP_append]
    rw [Lib.countP_finished_map]
    simp [Lib.isFinished]
  · refine ⟨min (matchedItems (lowerStr query) items).length MAX_TOTAL_RESULTS, ?_⟩
    rw [Lib.lib_search_spec, List.getLast?_concat]
  · intro sendOk rootDir walk
    cases rootDir with
    | none => rfl
    | some shallow =>
      simp only [Rs.search_files, Rs.passLoopW_filter]

/-- C4 counterexample: on badTree, whose only child matches "read" but has
an unreadable metadata, the search.rs invocation panics after Started: the
claim's assertion that a failed metadata read is skipped and the search
still sends Finished fails on this variant. -/
theorem c4_rs_metadata_panic_cex :
    (Rs.search_files_tree (fun _ => true) "read" 1 badTree).1
        = [Rs.SearchEvent.started "read" 1]
    ∧ (Rs.search_files_tree (fun _ => true) "read" 1 badTree).2 = true
    ∧ ((Rs.search_files_tree (fun _ => true) "read" 1 badTree).1.countP Rs.isFinished)
        = 0 := by
  refine ⟨by decide, by decide, by decide⟩

/-- C5 (amended): in the lib.rs engine every invocation's trace is exactly
Started, then the capped matches as Results in traversal order, then a
single Finished; in the search.rs variant the delivered trace is empty (the
Started send failed), or Started followed by in-order Result prefixes of the
two passes with no Finished (the invocation panicked), or that plus a final
single Finished (the invocation completed). -/
theorem c5_event_order (query : String) (sid : Nat) :
    (∀ items : List (Option Entry),
      (Lib.search_files query sid items).1
        = Lib.SearchEvent.started query sid ::
            ((matchedItems (lowerStr query) items).take MAX_TOTAL_RESULTS).map
              (Lib.mkResult sid)
          ++ [Lib.SearchEvent.finished sid
              (min (matchedItems (lowerStr query) items).length MAX_TOTAL_RESULTS) false]
      ∧ ((Lib.search_files query sid items).1.countP Lib.isFinished) = 1)
    ∧ (∀ (sendOk : Nat → Bool) (rootDir : Option (List Entry)) (walk : List (Option Entry)),
        ∃ k1 k2 tot,
          ((Rs.search_files sendOk rootDir walk query sid).1 = []
            ∧ (Rs.search_files sendOk rootDir walk query sid).2 = true)
          ∨ ((Rs.search_files sendOk rootDir walk query sid).1
                = Rs.SearchEvent.started query sid ::
                  (((matchedEntries (lowerStr query) (rootDir.getD [])).take k1).map
                      (Rs.mkResult sid)
                    ++ ((matchedItems (lowerStr query) walk).take k2).map (Rs.mkResult sid))
              ∧ (Rs.search_files sendOk rootDir walk query sid).2 = true)
          ∨ ((Rs.search_files sendOk rootDir walk query sid).1
                = Rs.SearchEvent.started query sid ::
                  (((matchedEntries (lowerStr query) (rootDir.getD [])).take k1).map
                      (Rs.mkResult sid)
                    ++ ((matchedItems (lowerStr query) walk).take k2).map (Rs.mkResult sid)
                    ++ [Rs.SearchEvent.finished sid tot])
              ∧ (Rs.search_files sendOk rootDir walk query sid).2 = false)) := by
  constructor
  · intro items
    refine ⟨Lib.lib_search_spec query sid items, ?_⟩
    rw [Lib.lib_search_spec]
    simp only [List.countP_cons, List.countP_append]
    rw [Lib.countP_finished_map]
    simp [Lib.isFinished]
  · intro sendOk rootDir walk
    exact Rs.rs_shape sendOk rootDir walk query sid

/-- C5 counterexample: with a channel that accepts only the Started send,
the search.rs invocation on projTree panics at the first Result send and
never sends Finished, refuting the claim that every invocation sends
Finished exactly once. -/
theorem c5_rs_missing_finished_cex :
    (Rs.search_files_tree (fun n => n == 0) "read" 1 projTree).1
        = [Rs.SearchEvent.started "read" 1]
    ∧ (Rs.search_files_tree (fun n => n == 0) "read" 1 projTree).2 = true
    ∧ ((Rs.search_files_tree (fun n => n == 0) "read" 1 projTree).1.countP Rs.isFinished)
        = 0 := by
  refine ⟨by decide, by decide, by decide⟩

/-- C6 (amended): in lib.rs the send result is discarded, so whatever sends
fail the command still returns Ok(()) and the delivered events are just a
subsequence of the attempted trace; the pty pump always attempts its Exit
emission exactly once and delivers at most one Exit event, for any pattern
of emit failures; in the search.rs variant every send is unwrapped, so a
failed send panics the invocation (see the counterexample). -/
theorem c6_send_failure_nonfatal :
    (∀ (query : String) (sid : Nat) (items : List (Option Entry)),
      (Lib.search_files query sid items).2 = Except.ok ())
    ∧ (∀ (sendOk : Nat → Bool) (query : String) (sid : Nat) (items : List (Option Entry)),
        List.Sublist (Lib.delivered sendOk (Lib.search_files query sid items).1)
          (Lib.search_files query sid items).1)
    ∧ (∀ (emitOk : Nat → Bool) (id : String) (stream : List Pty.PtyRead),
        (Pty.output_pump emitOk id stream).exitAttempts = 1
        ∧ (Pty.output_pump emitOk id stream).events.countP Pty.isExitEv ≤ 1) := by
  refine ⟨fun _ _ _ => rfl, ?_, ?_⟩
  · intro sendOk query sid items
    exact Lib.deliveredFrom_sublist sendOk (Lib.search_files query sid items).1 0
  · intro emitOk id stream
    exact ⟨rfl, Pty.pump_exit_once emitOk id stream⟩

/-- C6 counterexample: with a dead channel the search.rs invocation panics
at the unwrapped Started send and delivers nothing, refuting the claim that
a failed send is non-fatal in every emission site of the core. -/
theorem c6_rs_send_panic_cex :
    Rs.search_files_tree (fun _ => false) "a" 1 rootOnlyTree = ([], true) := by
  decide

/-- C7 (amended): every Result event of the lib.rs engine carries the
stored match path canonicalized-with-fallback and passed through
clean_path, and a clean_path output contains no backslash separator and no
extended-path marker; the search.rs variant instead delivers raw entry
paths untouched (see the counterexample). -/
theorem c7_lib_path_cleaning :
    (∀ (query : String) (sid : Nat) (items : List (Option Entry)),
      (Lib.search_files query sid items).1.filter Lib.isResult
        = ((matchedItems (lowerStr query) items).take MAX_TOTAL_RESULTS).map
            (Lib.mkResult sid))
    ∧ (∀ (sid : Nat) (x : Entry × Meta),
        Lib.mkResult sid x = Lib.SearchEvent.result sid
          (clean_path (x.1.canonical.getD x.1.path)) (x.1.pathFileName.getD "")
          x.2.isFile x.2.size (x.2.modified.getD 0))
    ∧ (∀ p : String, '\\' ∉ (clean_path p).data
        ∧ hasSub extPat (clean_path p).data = false) := by
  refine ⟨?_, fun _ _ => rfl, ?_⟩
  · intro query sid items
    rw [Lib.lib_search_spec]
    simp [List.filter_cons, List.filter_append, Lib.filter_result_map, Lib.isResult]
    intro a ha
    obtain ⟨x, hx, rfl⟩ := List.mem_map.mp (List.mem_of_mem_take ha)
    rfl
  · intro p
    exact ⟨clean_path_no_backslash p,
      hasSub_extPat_eq_false (clean_path p).data (clean_path_no_backslash p)⟩

/-- C7 counterexample: on winTree the search.rs variant delivers the raw
entry path, still carrying the extended-path marker and backslash
separators, refuting the claim that every delivered path is normalized. -/
theorem c7_rs_raw_path_cex :
    Rs.SearchEvent.result 2 "\\\\?\\C:\\docs\\bread.txt" "bread.txt" true 4 9
      ∈ (Rs.search_files_tree (fun _ => true) "read" 2 winTree).1
    ∧ '\\' ∈ "\\\\?\\C:\\docs\\bread.txt".data
    ∧ hasSub extPat "\\\\?\\C:\\docs\\bread.txt".data = true := by
  refine ⟨by decide, by decide, by decide⟩

/-- C8: write and resize on a session id absent from the registry return
the "PTY not found" error and leave the registry untouched, destroy on an
absent id is a no-op, and a write after destroy of the same id always
reports "PTY not found". -/
theorem c8_absent_session_ops (reg : Pty.Registry) (id : String)
    (h : reg.lookup id = none) :
    (∀ data : String, Pty.write_pty reg id data = (Except.error "PTY not found", reg))
    ∧ (∀ rows cols : Nat,
        Pty.resize_pty reg id rows cols = (Except.error "PTY not found", reg))
    ∧ Pty.destroy_pty reg id = reg
    ∧ (∀ (reg' : Pty.Registry) (id' : String) (data : String),
        (Pty.write_pty (Pty.destroy_pty reg' id') id' data).1
          = Except.error "PTY not found") := by
  refine ⟨?_, ?_, Pty.destroy_absent reg id h, ?_⟩
  · intro data
    rw [Pty.write_pty, h]
  · intro rows cols
    rw [Pty.resize_pty, h]
  · intro reg' id' data
    rw [Pty.write_pty, Pty.destroy_lookup]

/-- C8 witness: on the empty registry, write of "d" to session "s" errors
with "PTY not found" and destroy of "s" is a no-op. -/
theorem c8_absent_session_ops_witness :
    Pty.write_pty ([] : Pty.Registry) "s" "d" = (Except.error "PTY not found", [])
    ∧ Pty.destroy_pty ([] : Pty.Registry) "s" = [] :=
  ⟨(c8_absent_session_ops [] "s" rfl).1 "d", (c8_absent_session_ops [] "s" rfl).2.2.1⟩

/-- C9 (amended): with a healthy window the pump forwards exactly the chunk
reads before the first read error as Output events in order, terminates
with cause EOF when the stream is clean and cause read-error otherwise
(consuming nothing past the failed read, hence never retrying it), and
follows the loop with the Exit event; for any pattern of emit failures the
exit emission is attempted exactly once and delivered at most once (a
failed output emission is a third loop-ending cause — see the
counterexample). -/
theorem c9_pump_termination (id : String) (stream : List Pty.PtyRead) :
    (Pty.output_pump (fun _ => true) id stream).events
        = ((stream.takeWhile Pty.isChunk).map
            (fun r => Pty.PtyEvent.output id (Pty.chunkData r))) ++ [Pty.PtyEvent.exit id]
    ∧ (Pty.output_pump (fun _ => true) id stream).cause
        = (if stream.all Pty.isChunk then Pty.PumpCause.eof else Pty.PumpCause.readErr)
    ∧ (Pty.output_pump (fun _ => true) id stream).reads
        = (stream.takeWhile Pty.isChunk).length
          + (if stream.all Pty.isChunk then 0 else 1)
    ∧ (∀ emitOk : Nat → Bool,
        (Pty.output_pump emitOk id stream).exitAttempts = 1
        ∧ (Pty.output_pump emitOk id stream).events.countP Pty.isExitEv ≤ 1) := by
  have h := Pty.pumpLoop_ok (fun _ => true) (fun _ => rfl) id stream 0
  refine ⟨?_, ?_, ?_, fun emitOk => ⟨rfl, Pty.pump_exit_once emitOk id stream⟩⟩
  · rw [Pty.output_pump, h]
    simp
  · rw [Pty.output_pump, h]
  · rw [Pty.output_pump, h]

/-- C9 counterexample: with a dead window, the pump on a two-chunk stream
ends its loop because the first Output emission failed — neither EOF nor a
read error — after consuming one read of two, and not even the Exit event
is delivered; the claim that the pump terminates only on EOF or a read
error fails. -/
theorem c9_emit_fail_termination_cex :
    (Pty.output_pump (fun _ => false) "s"
        [Pty.PtyRead.chunk "hi", Pty.PtyRead.chunk "ho"]).cause = Pty.PumpCause.emitFail
    ∧ ¬ ((Pty.output_pump (fun _ => false) "s"
        [Pty.PtyRead.chunk "hi", Pty.PtyRead.chunk "ho"]).cause = Pty.PumpCause.eof)
    ∧ ¬ ((Pty.output_pump (fun _ => false) "s"
        [Pty.PtyRead.chunk "hi", Pty.PtyRead.chunk "ho"]).cause = Pty.PumpCause.readErr)
    ∧ (Pty.output_pump (fun _ => false) "s"
        [Pty.PtyRead.chunk "hi", Pty.PtyRead.chunk "ho"]).reads = 1
    ∧ (Pty.output_pump (fun _ => false) "s"
        [Pty.PtyRead.chunk "hi", Pty.PtyRead.chunk "ho"]).events = [] := by
  refine ⟨by decide, by decide, by decide, by decide, by decide⟩

/-- C10: in both variants the recursive traversal yields the root itself
first, so a root directory whose lowercased name contains the lowercased
query is counted in totalMatches and delivered as a Result event: in lib.rs
its Result is in the trace and Finished reports at least one match, and in
search.rs (run to completion) likewise. -/
theorem c10_root_entry_match (query : String) (sid : Nat) (t : FTree) (e : Entry) (m : Meta)
    (hroot : t.item = some e) (hmd : e.metadata = some m)
    (hnm : nameMatches (lowerStr query) e.name = true)
    (hsE : Rs.safeE (lowerStr query) (shallowOf t) = true)
    (hsW : Rs.safeW (lowerStr query) (walkdirItems t) = true) :
    (Lib.mkResult sid (e, m) ∈ (Lib.search_files_tree query sid t).1)
    ∧ (∃ tot, (Lib.search_files_tree query sid t).1.getLast?
          = some (Lib.SearchEvent.finished sid tot false) ∧ 1 ≤ tot)
    ∧ (Rs.mkResult sid (e, m) ∈ (Rs.search_files_tree (fun _ => true) query sid t).1)
    ∧ (∃ totR, (Rs.search_files_tree (fun _ => true) query sid t).1.getLast?
          = some (Rs.SearchEvent.finished sid totR) ∧ 1 ≤ totR) := by
  have hw : walkdirItems t = some e :: walkdirItemsL t.children := by
    rw [walkdirItems_node, hroot]
  have hmk : matchedItems (lowerStr query) (walkdirItems t)
      = (e, m) :: matchedItems (lowerStr query) (walkdirItemsL t.children) := by
    rw [hw, matchedItems_cons_match (lowerStr query) e m _ hmd hnm]
  have hrs := Rs.rs_search_ok (fun _ => true) (fun _ => rfl) (shallowOf t)
    (walkdirItems t) query sid hsE hsW
  refine ⟨?_, ?_, ?_, ?_⟩
  · rw [Lib.search_files_tree, Lib.lib_search_spec, hmk]
    rw [show MAX_TOTAL_RESULTS = 99 + 1 from rfl, List.take_succ_cons]
    simp [List.mem_cons]
  · refine ⟨min (matchedItems (lowerStr query) (walkdirItems t)).length MAX_TOTAL_RESULTS,
      ?_, ?_⟩
    · rw [Lib.search_files_tree, Lib.lib_search_spec, List.getLast?_concat]
    · rw [hmk]
      simp only [List.length_cons, MAX_TOTAL_RESULTS]
      omega
  · rw [Rs.search_files_tree, hrs]
    rw [hmk]
    simp [List.mem_cons, List.mem_append]
  · refine ⟨(matchedEntries (lowerStr query) (shallowOf t)).length
      + (matchedItems (lowerStr query) (walkdirItems t)).length, ?_, ?_⟩
    · rw [Rs.search_files_tree, hrs]
      rw [show Rs.SearchEvent.started query sid ::
        ((matchedEntries (lowerStr query) (shallowOf t)).map (Rs.mkResult sid)
          ++ (matchedItems (lowerStr query) (walkdirItems t)).map (Rs.mkResult sid)
          ++ [Rs.SearchEvent.finished sid
              ((matchedEntries (lowerStr query) (shallowOf t)).length
                + (matchedItems (lowerStr query) (walkdirItems t)).length)])
        = (Rs.SearchEvent.started query sid ::
            ((matchedEntries (lowerStr query) (shallowOf t)).map (Rs.mkResult sid)
              ++ (matchedItems (lowerStr query) (walkdirItems t)).map (Rs.mkResult sid)))
          ++ [Rs.SearchEvent.finished sid
              ((matchedEntries (lowerStr query) (shallowOf t)).length
                + (matchedItems (lowerStr query) (walkdirItems t)).length)] from by
        simp [List.append_assoc]]
      rw [List.getLast?_concat]
    · rw [hmk]
      simp only [List.length_cons]
      omega

/-- C10 witness: the childless matching root directory abc searched for "B"
is delivered by the search.rs variant as a Result event. -/
theorem c10_root_entry_match_witness :
    Rs.mkResult 3 (mkEntry "/tmp/abc" "abc" (some ⟨false, 0, some 4⟩), ⟨false, 0, some 4⟩)
      ∈ (Rs.search_files_tree (fun _ => true) "B" 3 rootOnlyTree).1 :=
  (c10_root_entry_match "B" 3 rootOnlyTree
    (mkEntry "/tmp/abc" "abc" (some ⟨false, 0, some 4⟩)) ⟨false, 0, some 4⟩
    rfl rfl (by decide) (by decide) (by decide)).2.2.1
